import Mathlib

set_option maxHeartbeats 1000000

/-!
Formal model of the E2B MCP gateway (`e2b-mcp-gateway/server.js`).

The model covers the per-session subprocess state machine of
`callMcpServer` (line-buffered stdout parsing, the `init` handshake,
response correlation, timeout and kill handling) together with the HTTP
handlers for `POST /mcp` (batch fan-out) and `POST /run`.

JavaScript strings are modelled as `List Char`; JSON values as the
inductive `Json`; the single-threaded event loop as an explicit list of
`Event`s folded over the session state.  The external `JSON.parse` is a
parameter `parse : Str → Option Json` of the machine (the source only
uses its success/failure and the resulting value); `jsonParse` below is
a concrete executable model of `JSON.parse` for the escape-free JSON
subset exercised by the concrete instances in this file.
-/

abbrev Str := List Char

inductive Json where
  | null
  | bool (b : Bool)
  | num (n : Int)
  | str (s : String)
  | arr (elems : List Json)
  | obj (fields : List (String × Json))

def lookupField : List (String × Json) → String → Option Json
  | [], _ => none
  | (k, v) :: rest, key => if k = key then some v else lookupField rest key

/-- JS member access `o.k` as used by the gateway, with `undefined`
modelled as `none`; access on `null` throws a `TypeError`
(`Except.error`), which the stdout handler's `try` swallows. -/
def jsGetField : Json → String → Except Unit (Option Json)
  | .null, _ => .error ()
  | .obj fs, key => .ok (lookupField fs key)
  | _, _ => .ok none

/-- Total member access for HTTP request bodies: `express.json()` in its
default strict mode only delivers objects and arrays to the handlers, so
member access on a body can never throw. -/
def Json.get : Json → String → Option Json
  | .obj fs, key => lookupField fs key
  | _, _ => none

/-- JS truthiness of a parsed JSON value. -/
def jsTruthy : Json → Bool
  | .null => false
  | .bool b => b
  | .num n => n != 0
  | .str s => s != ""
  | .arr _ => true
  | .obj _ => true

/-- JS strict equality `===` between two possibly-`undefined` parsed
JSON values: primitives compare by value; objects and arrays compare by
reference, and two freshly parsed values are always distinct references,
hence unequal. -/
def jsStrictEq : Option Json → Option Json → Bool
  | none, none => true
  | some .null, some .null => true
  | some (.bool a), some (.bool b) => a == b
  | some (.num a), some (.num b) => a == b
  | some (.str a), some (.str b) => a == b
  | _, _ => false

/-- `x || null` on a possibly-absent member (source line 142). -/
def jsOrNull : Option Json → Json
  | some x => if jsTruthy x then x else .null
  | none => .null

/-- `a || b` where either operand may be `undefined`
(source line 206, `response.result || response.error`). -/
def jsOrOpt : Option Json → Option Json → Option Json
  | some x, b => if jsTruthy x then some x else b
  | none, b => b

def isWs (c : Char) : Bool := c == ' ' || c == '\t' || c == '\n' || c == '\r'

/-- JS `String.prototype.trim` (over the whitespace alphabet the gateway
sees on its streams). -/
def trimChars (s : Str) : Str := ((s.dropWhile isWs).reverse.dropWhile isWs).reverse

/-- JS `str.split('\n')` (source line 54): the list of segments between
newlines, always nonempty, with the trailing segment after the last
newline (possibly empty) last. -/
def splitNl : Str → List Str
  | [] => [[]]
  | c :: rest =>
    if c = '\n' then [] :: splitNl rest
    else
      match splitNl rest with
      | [] => [[c]]
      | l :: ls => (c :: l) :: ls

def skipWs (s : Str) : Str := s.dropWhile isWs

/-- Body of a JSON string literal up to its closing quote (escape-free
subset). -/
def parseStrBody : Str → Option (Str × Str)
  | [] => none
  | c :: rest =>
    if c = '"' then some ([], rest)
    else
      match parseStrBody rest with
      | some (s, r) => some (c :: s, r)
      | none => none

def parseNat (s : Str) : Option (Nat × Str) :=
  let ds := s.takeWhile Char.isDigit
  if ds = [] then none
  else some (ds.foldl (fun n c => n * 10 + (c.toNat - 48)) 0, s.dropWhile Char.isDigit)

mutual

def parseVal : Nat → Str → Option (Json × Str)
  | 0, _ => none
  | fuel + 1, s =>
    match skipWs s with
    | [] => none
    | c :: rest =>
      if c = '"' then
        match parseStrBody rest with
        | some (cs, r) => some (.str (String.mk cs), r)
        | none => none
      else if c = '\x7b' then parseFields fuel (skipWs rest) []
      else if c = '[' then parseElems fuel (skipWs rest) []
      else if c = 'n' then
        match rest with
        | 'u' :: 'l' :: 'l' :: r => some (.null, r)
        | _ => none
      else if c = 't' then
        match rest with
        | 'r' :: 'u' :: 'e' :: r => some (.bool true, r)
        | _ => none
      else if c = 'f' then
        match rest with
        | 'a' :: 'l' :: 's' :: 'e' :: r => some (.bool false, r)
        | _ => none
      else if c = '-' then
        match parseNat rest with
        | some (n, r) => some (.num (-(n : Int)), r)
        | none => none
      else
        match parseNat (c :: rest) with
        | some (n, r) => some (.num (n : Int), r)
        | none => none

def parseFields : Nat → Str → List (String × Json) → Option (Json × Str)
  | 0, _, _ => none
  | fuel + 1, s, acc =>
    match s with
    | '\x7d' :: r => some (.obj acc.reverse, r)
    | '"' :: rest =>
      match parseStrBody rest with
      | some (k, r1) =>
        match skipWs r1 with
        | ':' :: r2 =>
          match parseVal fuel (skipWs r2) with
          | some (v, r3) =>
            match skipWs r3 with
            | ',' :: r4 => parseFields fuel (skipWs r4) ((String.mk k, v) :: acc)
            | '\x7d' :: r4 => some (.obj (((String.mk k, v) :: acc).reverse), r4)
            | _ => none
          | none => none
        | _ => none
      | none => none
    | _ => none

def parseElems : Nat → Str → List Json → Option (Json × Str)
  | 0, _, _ => none
  | fuel + 1, s, acc =>
    match s with
    | ']' :: r => some (.arr acc.reverse, r)
    | _ =>
      match parseVal fuel s with
      | some (v, r1) =>
        match skipWs r1 with
        | ',' :: r2 => parseElems fuel (skipWs r2) (v :: acc)
        | ']' :: r2 => some (.arr ((v :: acc).reverse), r2)
        | _ => none
      | none => none

end

/-- Executable model of `JSON.parse` on the escape-free subset used in
this file: parses one JSON value and requires only whitespace to remain,
returning `none` (a thrown `SyntaxError`) otherwise. -/
def jsonParse (s : Str) : Option Json :=
  match parseVal (4 * s.length + 16) s with
  | some (v, rest) => if skipWs rest = [] then some v else none
  | none => none

/-- The synthetic initialize handshake message written first on the
subprocess stdin (`initMsg`, source lines 99–109). -/
def initMsg : Json :=
  .obj [("jsonrpc", .str "2.0"), ("id", .str "init"), ("method", .str "initialize"),
    ("params", .obj [("protocolVersion", .str "2024-11-05"), ("capabilities", .obj []),
      ("clientInfo", .obj [("name", .str "letta-gateway"), ("version", .str "1.0.0")])])]

/-- The session timeout ceiling in milliseconds (source line 114). -/
def TIMEOUT_MS : Nat := 60000

/-- How a session's promise settled: `resolve(msg)` on a correlated
response, or one of the three rejection paths. -/
inductive Outcome where
  | resolved (msg : Json)
  | errored (err : String)
  | exitError (code : Int) (stderrText : Str)
  | timedOut

/-- The closure state of one `callMcpServer` session, apart from the
`stdout` line buffer (kept separately in `SessState` since no line
handler reads or writes it). -/
structure SessCore where
  stderr : Str
  initialized : Bool
  requestSent : Bool
  timeoutCleared : Bool
  killed : Nat
  settled : Option Outcome
  killsAtSettle : Option Nat
  stdinWrites : List Json

/-- Full session state: the residual stdout line buffer plus the core. -/
structure SessState where
  stdout : Str
  core : SessCore

/-- State at the start of a session: the initialize message has already
been written synchronously (source line 109) and the timeout armed. -/
def initState : SessState :=
  { stdout := [],
    core := { stderr := [], initialized := false, requestSent := false,
              timeoutCleared := false, killed := 0, settled := none,
              killsAtSettle := none, stdinWrites := [initMsg] } }

/-- Settling the session promise: the first `resolve`/`reject` wins and
later calls are no-ops.  `killsAtSettle` records how many `proc.kill()`
calls had been issued at the moment of settlement. -/
def settle (st : SessCore) (o : Outcome) : SessCore :=
  match st.settled with
  | some _ => st
  | none => { st with settled := some o, killsAtSettle := some st.killed }

/-- The events a session can observe: stdout/stderr data, the spawn
`error` event, the `exit` event (`null` code when killed by signal), and
the 60-second timer firing. -/
inductive Event where
  | stdoutData (chunk : Str)
  | stderrData (chunk : Str)
  | procError (err : String)
  | procExit (code : Option Int)
  | timeout

/-- One iteration of the `for` loop over complete stdout lines
(source lines 56–79): trim, skip empty, `JSON.parse` inside `try`
(parse failures and the `TypeError` from `msg.id` on a `null` line are
swallowed), then the handshake branch and the correlation branch. -/
def processLine (parse : Str → Option Json) (request : Json)
    (st : SessCore) (rawLine : Str) : SessCore :=
  let line := trimChars rawLine
  if line = [] then st
  else
    match parse line with
    | none => st
    | some msg =>
      match jsGetField msg "id" with
      | .error _ => st
      | .ok mid =>
        if jsStrictEq mid (some (.str "init")) && !st.initialized then
          { st with initialized := true,
                    stdinWrites := st.stdinWrites ++ [request],
                    requestSent := true }
        else
          match jsGetField request "id" with
          | .error _ => st
          | .ok rid =>
            if jsStrictEq mid rid then
              settle { st with timeoutCleared := true, killed := st.killed + 1 }
                (.resolved msg)
            else st

/-- One event-loop callback of a session (source lines 52–114): the
stdout data handler splits the accumulated buffer on newlines, runs the
line loop on every complete line and retains the trailing segment; the
stderr handler accumulates; `error` clears the timer and rejects; `exit`
rejects only on a non-zero non-null code; the timer, when not cleared,
kills the subprocess and rejects with the timeout error. -/
def step (parse : Str → Option Json) (request : Json) (st : SessState) :
    Event → SessState
  | .stdoutData chunk =>
    let lines := splitNl (st.stdout ++ chunk)
    { stdout := lines.getLastD [],
      core := lines.dropLast.foldl (processLine parse request) st.core }
  | .stderrData chunk =>
    { st with core := { st.core with stderr := st.core.stderr ++ chunk } }
  | .procError err =>
    { st with core := settle { st.core with timeoutCleared := true } (.errored err) }
  | .procExit code =>
    match code with
    | some c =>
      if c ≠ 0 then { st with core := settle st.core (.exitError c st.core.stderr) }
      else st
    | none => st
  | .timeout =>
    if st.core.timeoutCleared then st
    else { st with core := settle { st.core with killed := st.core.killed + 1 } .timedOut }

/-- A whole session: fold the observed events over the initial state. -/
def run (parse : Str → Option Json) (request : Json) (events : List Event) : SessState :=
  events.foldl (step parse request) initState

/-- Kills issued by the gateway at the moment each outcome settles the
promise: one on the correlated-response and timeout paths, none on the
spawn-error and non-zero-exit paths. -/
def Outcome.killsOnSettle : Outcome → Nat
  | .resolved _ => 1
  | .timedOut => 1
  | .errored _ => 0
  | .exitError _ _ => 0

/-- Result of an HTTP handler: status, JSON body (`none` when the JS
value serialized is `undefined`), and the requests dispatched to
`callMcpServer` while producing it. -/
structure HandlerResult where
  status : Nat
  body : Option Json
  dispatched : List Json

/-- `Array.isArray(body) ? body : [body]` (source line 126). -/
def mcpRequests : Json → List Json
  | .arr xs => xs
  | b => [b]

/-- `Promise.all(requests.map(r => callMcpServer(r)))` (source lines
129–131): all responses in input order, or the failure of a failing
session. -/
def collectResponses (call : Json → Except String Json) : List Json → Except String (List Json)
  | [] => .ok []
  | r :: rs =>
    match call r with
    | .error e => .error e
    | .ok resp =>
      match collectResponses call rs with
      | .error e => .error e
      | .ok resps => .ok (resp :: resps)

/-- The JSON-RPC-shaped error envelope of the `/mcp` catch branch
(source lines 140–144). -/
def mcpErrorEnvelope (body : Json) (e : String) : Json :=
  .obj [("jsonrpc", .str "2.0"), ("id", jsOrNull (body.get "id")),
    ("error", .obj [("code", .num (-32603)), ("message", .str e)])]

/-- The `POST /mcp` handler (source lines 122–146), with `callMcpServer`
abstracted as `call`.  Every element of an array body (or the single
object body) is dispatched as its own session. -/
def handleMcp (call : Json → Except String Json) (body : Json) : HandlerResult :=
  let requests := mcpRequests body
  match collectResponses call requests with
  | .ok responses =>
    match body with
    | .arr _ => ⟨200, some (.arr responses), requests⟩
    | _ => ⟨200, responses.head?, requests⟩
  | .error e => ⟨500, some (mcpErrorEnvelope body e), requests⟩

/-- The synthetic `tools/call` request built by `POST /run`
(source lines 194–202), with `crypto.randomUUID()` abstracted as
`uuid`. -/
def runRequest (uuid : String) (code : Json) : Json :=
  .obj [("jsonrpc", .str "2.0"), ("id", .str uuid), ("method", .str "tools/call"),
    ("params", .obj [("name", .str "run_code"), ("arguments", .obj [("code", code)])])]

/-- The `POST /run` handler (source lines 188–210): `!code` sends 400
before any session is dispatched; otherwise one session is dispatched
and on success the response is unwrapped as `response.result ||
response.error`. -/
def handleRun (call : Json → Except String Json) (uuid : String) (body : Json) :
    HandlerResult :=
  match body.get "code" with
  | none => ⟨400, some (.obj [("error", .str "code is required")]), []⟩
  | some c =>
    if jsTruthy c then
      match call (runRequest uuid c) with
      | .ok response =>
        ⟨200, jsOrOpt (response.get "result") (response.get "error"), [runRequest uuid c]⟩
      | .error e => ⟨500, some (.obj [("error", .str e)]), [runRequest uuid c]⟩
    else ⟨400, some (.obj [("error", .str "code is required")]), []⟩

/-- A representative caller request with id `"abc"`. -/
def reqAbc : Json :=
  .obj [("jsonrpc", .str "2.0"), ("id", .str "abc"), ("method", .str "tools/list"),
    ("params", .obj [])]

/-- A caller request whose id collides with the reserved handshake id. -/
def reqInitId : Json :=
  .obj [("jsonrpc", .str "2.0"), ("id", .str "init"), ("method", .str "tools/list"),
    ("params", .obj [])]

/-- The initialize acknowledgement line emitted by the subprocess. -/
def ackLine : Str :=
  "\x7b\"jsonrpc\":\"2.0\",\"id\":\"init\",\"result\":\x7b\x7d\x7d".toList

/-- A response line correlated to `reqAbc`. -/
def respAbcLine : Str :=
  "\x7b\"jsonrpc\":\"2.0\",\"id\":\"abc\",\"result\":\x7b\x7d\x7d".toList

/-- A response line carrying the reserved id `"init"`. -/
def respInitLine : Str :=
  "\x7b\"jsonrpc\":\"2.0\",\"id\":\"init\",\"result\":\x7b\"ok\":true\x7d\x7d".toList

/-- One stdout delivery holding the handshake ack and the correlated
response for `reqAbc`. -/
def chunkOk : Str := ackLine ++ '\n' :: respAbcLine ++ ['\n']

/-- One stdout delivery holding the handshake ack and a response whose
id is the reserved `"init"`. -/
def chunkInitDup : Str := ackLine ++ '\n' :: respInitLine ++ ['\n']

/-- The parsed form of `respAbcLine`. -/
def msgAbc : Json :=
  .obj [("jsonrpc", .str "2.0"), ("id", .str "abc"), ("result", .obj [])]

/-- The parsed form of `respInitLine`. -/
def msgInitRes : Json :=
  .obj [("jsonrpc", .str "2.0"), ("id", .str "init"), ("result", .obj [("ok", .bool true)])]

/-- A non-JSON diagnostic line. -/
def noiseLine : Str := "Starting E2B sandbox server...".toList

/-- A resolved message is correlated: its `id` member was read without a
throw and is strictly equal to the caller request's `id` member. -/
def ResolvedOk (request m : Json) : Prop :=
  ∃ mid rid, jsGetField m "id" = .ok mid ∧ jsGetField request "id" = .ok rid ∧
    jsStrictEq mid rid = true

/-- Session-state invariant maintained by every event handler: a cleared
timer implies a settled promise; an unsettled session has issued no
kills; the kill count recorded at settlement matches the outcome's exit
path; and a resolved outcome is correlated to the caller's id. -/
def SessInv (request : Json) (c : SessCore) : Prop :=
  (c.timeoutCleared = true → c.settled ≠ none)
  ∧ (c.settled = none → c.killed = 0 ∧ c.killsAtSettle = none)
  ∧ (∀ o, c.settled = some o → c.killsAtSettle = some o.killsOnSettle)
  ∧ (∀ m, c.settled = some (.resolved m) → ResolvedOk request m)

theorem splitNl_ne_nil (s : Str) : splitNl s ≠ [] := by
  induction s with
  | nil => simp [splitNl]
  | cons c rest ih =>
    simp only [splitNl]
    split
    · simp
    · split <;> simp

theorem getLastD_irrel {α : Type} (l : List α) (h : l ≠ []) (d1 d2 : α) :
    l.getLastD d1 = l.getLastD d2 := by
  rw [List.getLastD_eq_getLast?, List.getLastD_eq_getLast?]
  cases hl : l.getLast? with
  | none => exact absurd (List.getLast?_eq_none_iff.mp hl) h
  | some v => rfl

theorem splitNl_cons_nl (rest : Str) : splitNl ('\n' :: rest) = [] :: splitNl rest := by
  simp [splitNl]

theorem splitNl_cons_of (c : Char) (rest : Str) (l : Str) (ls : List Str)
    (hc : c ≠ '\n') (h : splitNl rest = l :: ls) :
    splitNl (c :: rest) = (c :: l) :: ls := by
  simp [splitNl, if_neg hc, h]

/-- Splitting a concatenation on newlines: the complete lines of the
prefix, then the split of the prefix's trailing segment glued to the
suffix. -/
theorem splitNl_append (a b : Str) :
    splitNl (a ++ b) =
      (splitNl a).dropLast ++ splitNl ((splitNl a).getLastD [] ++ b) := by
  induction a with
  | nil => simp [splitNl]
  | cons c x ih =>
    rcases hx : splitNl x with _ | ⟨l0, ls0⟩
    · exact absurd hx (splitNl_ne_nil x)
    rcases hxb : splitNl (x ++ b) with _ | ⟨m0, ms0⟩
    · exact absurd hxb (splitNl_ne_nil _)
    by_cases hc : c = '\n'
    · subst hc
      rw [List.cons_append, splitNl_cons_nl, splitNl_cons_nl, ih,
        List.dropLast_cons_of_ne_nil (splitNl_ne_nil x), List.getLastD_cons,
        List.cons_append]
    · rw [List.cons_append, splitNl_cons_of c (x ++ b) m0 ms0 hc hxb,
        splitNl_cons_of c x l0 ls0 hc hx]
      rw [hx, hxb] at ih
      cases ls0 with
      | nil =>
        simp only [List.dropLast_single, List.nil_append, List.getLastD_cons,
          List.getLastD_nil] at ih ⊢
        rw [List.cons_append, splitNl_cons_of c (l0 ++ b) m0 ms0 hc ih.symm]
      | cons l1 ls1 =>
        rw [List.dropLast_cons_of_ne_nil (by simp), List.getLastD_cons] at ih ⊢
        rw [getLastD_irrel (l1 :: ls1) (by simp) (c :: l0) l0]
        rw [List.cons_append] at ih
        injection ih with h1 h2
        rw [List.cons_append, h1, h2]

theorem getLastD_append_right {α : Type} (xs ys : List α) (h : ys ≠ []) (d : α) :
    (xs ++ ys).getLastD d = ys.getLastD d := by
  rw [List.getLastD_eq_getLast?, List.getLastD_eq_getLast?,
    List.getLast?_append_of_ne_nil _ h]

/-- C1: the line-buffered stdout parser is insensitive to how the byte
stream is cut into data events: two consecutive deliveries have exactly
the same effect as one delivery of their concatenation, on the whole
session state (messages handled and residual buffer alike). -/
theorem stdout_chunks_reassembled (p : Str → Option Json) (r : Json)
    (st : SessState) (a b : Str) :
    step p r (step p r st (.stdoutData a)) (.stdoutData b)
      = step p r st (.stdoutData (a ++ b)) := by
  simp only [step]
  rw [← List.append_assoc, splitNl_append (st.stdout ++ a) b,
    getLastD_append_right _ _ (splitNl_ne_nil _) [],
    List.dropLast_append_of_ne_nil _ (splitNl_ne_nil _),
    List.foldl_append]

theorem settle_of_some (c : SessCore) (o o' : Outcome) (h : c.settled = some o') :
    settle c o = c := by
  simp [settle, h]

theorem settle_of_none (c : SessCore) (o : Outcome) (h : c.settled = none) :
    settle c o = { c with settled := some o, killsAtSettle := some c.killed } := by
  simp [settle, h]

/-- Exhaustive description of one line-loop iteration: it is a no-op, or
it performs the handshake dispatch, or it kills and resolves with a
message correlated to the caller's id. -/
theorem processLine_cases (p : Str → Option Json) (r : Json) (c : SessCore) (l : Str) :
    processLine p r c l = c
    ∨ processLine p r c l
        = { c with initialized := true, stdinWrites := c.stdinWrites ++ [r],
                   requestSent := true }
    ∨ ∃ msg, ResolvedOk r msg ∧ processLine p r c l
        = settle { c with timeoutCleared := true, killed := c.killed + 1 }
            (.resolved msg) := by
  unfold processLine
  by_cases h0 : trimChars l = []
  · left; simp [h0]
  rcases hp : p (trimChars l) with _ | msg
  · left; simp [h0, hp]
  rcases hid : jsGetField msg "id" with e | mid
  · left; simp [h0, hp, hid]
  cases h1 : jsStrictEq mid (some (.str "init")) && !c.initialized with
  | true => right; left; simp [h0, hp, hid, h1]
  | false =>
    rcases hrid : jsGetField r "id" with e | rid
    · left; simp [h0, hp, hid, h1, hrid]
    cases h2 : jsStrictEq mid rid with
    | true =>
      right; right
      exact ⟨msg, ⟨mid, rid, hid, hrid, h2⟩, by simp [h0, hp, hid, h1, hrid, h2]⟩
    | false => left; simp [h0, hp, hid, h1, hrid, h2]

theorem foldl_preserve {σ α : Type} {P : σ → Prop} (f : σ → α → σ)
    (hf : ∀ c x, P c → P (f c x)) :
    ∀ (ls : List α) (c : σ), P c → P (ls.foldl f c) := by
  intro ls
  induction ls with
  | nil => intro c hc; simpa using hc
  | cons x xs ih => intro c hc; simpa using ih (f c x) (hf c x hc)

/-- Settling preserves the invariant whenever the kill counter was bumped
by exactly the settling path's kill count and a resolved outcome carries
a correlated message. -/
theorem sessInv_settle (r : Json) (c c' : SessCore) (o : Outcome)
    (hinv : SessInv r c)
    (hsettled : c'.settled = c.settled) (hkas : c'.killsAtSettle = c.killsAtSettle)
    (hkilled : c'.killed = c.killed + o.killsOnSettle)
    (hres : ∀ m, o = .resolved m → ResolvedOk r m) :
    SessInv r (settle c' o) := by
  obtain ⟨h1, h2, h3, h4⟩ := hinv
  rcases hs : c.settled with _ | o0
  · rw [settle_of_none _ _ (hsettled.trans hs)]
    obtain ⟨hk, _⟩ := h2 hs
    refine ⟨fun _ => by simp, fun hn => by simp at hn, ?_, ?_⟩
    · intro o1 ho1
      simp only [Option.some.injEq] at ho1
      subst ho1
      simp [hkilled, hk]
    · intro m hm
      simp only [Option.some.injEq] at hm
      exact hres m hm
  · rw [settle_of_some _ _ o0 (hsettled.trans hs)]
    refine ⟨fun _ => by simp [hsettled, hs], fun hn => ?_, ?_, ?_⟩
    · rw [hsettled, hs] at hn; cases hn
    · intro o1 ho1
      rw [hsettled, hs] at ho1
      simp only [Option.some.injEq] at ho1
      subst ho1
      rw [hkas]
      exact h3 _ hs
    · intro m hm
      rw [hsettled, hs] at hm
      simp only [Option.some.injEq] at hm
      subst hm
      exact h4 m hs

theorem sessInv_processLine (p : Str → Option Json) (r : Json) (c : SessCore)
    (l : Str) (h : SessInv r c) : SessInv r (processLine p r c l) := by
  rcases processLine_cases p r c l with he | he | ⟨msg, hok, he⟩
  · rwa [he]
  · rw [he]
    exact h
  · rw [he]
    refine sessInv_settle r c _ _ h rfl rfl rfl ?_
    intro m hm
    cases hm
    exact hok

theorem sessInv_step (p : Str → Option Json) (r : Json) (st : SessState)
    (e : Event) (h : SessInv r st.core) : SessInv r (step p r st e).core := by
  cases e with
  | stdoutData chunk =>
    exact foldl_preserve _ (fun c l hc => sessInv_processLine p r c l hc) _ _ h
  | stderrData chunk => exact h
  | procError err =>
    exact sessInv_settle r st.core _ _ h rfl rfl rfl (fun m hm => by cases hm)
  | procExit code =>
    cases code with
    | none => exact h
    | some cexit =>
      simp only [step]
      split
      · exact sessInv_settle r st.core _ _ h rfl rfl rfl (fun m hm => by cases hm)
      · exact h
  | timeout =>
    simp only [step]
    split
    · exact h
    · exact sessInv_settle r st.core _ _ h rfl rfl rfl (fun m hm => by cases hm)

theorem sessInv_init (r : Json) : SessInv r initState.core :=
  ⟨fun h => by simp [initState] at h, fun _ => ⟨rfl, rfl⟩,
   fun o ho => by simp [initState] at ho, fun m hm => by simp [initState] at hm⟩

theorem sessInv_run (p : Str → Option Json) (r : Json) (evs : List Event) :
    SessInv r (run p r evs).core :=
  foldl_preserve (step p r) (fun st e hst => sessInv_step p r st e hst) evs initState
    (sessInv_init r)

theorem settled_some_processLine (p : Str → Option Json) (r : Json) (c : SessCore)
    (l : Str) (o : Outcome) (h : c.settled = some o) :
    (processLine p r c l).settled = some o := by
  rcases processLine_cases p r c l with he | he | ⟨m, _, he⟩ <;> rw [he]
  · exact h
  · exact h
  · rw [settle_of_some _ _ o (by simpa using h)]
    simpa using h

theorem settled_some_step (p : Str → Option Json) (r : Json) (st : SessState)
    (e : Event) (o : Outcome) (h : st.core.settled = some o) :
    (step p r st e).core.settled = some o := by
  cases e with
  | stdoutData chunk =>
    exact foldl_preserve (P := fun c => c.settled = some o) _
      (fun c l hc => settled_some_processLine p r c l o hc) _ _ h
  | stderrData chunk => exact h
  | procError err =>
    rw [show (step p r st (.procError err)).core
        = settle { st.core with timeoutCleared := true } (.errored err) from rfl,
      settle_of_some _ _ o (by simpa using h)]
    simpa using h
  | procExit code =>
    cases code with
    | none => exact h
    | some cexit =>
      simp only [step]
      split
      · rw [settle_of_some _ _ o (by simpa using h)]; simpa using h
      · exact h
  | timeout =>
    simp only [step]
    split
    · exact h
    · rw [settle_of_some _ _ o (by simpa using h)]; simpa using h

theorem run_append_one (p : Str → Option Json) (r : Json) (evs : List Event)
    (e : Event) : run p r (evs ++ [e]) = step p r (run p r evs) e := by
  simp [run, List.foldl_append]

theorem eq_of_jsStrictEq (a b : Option Json) (h : jsStrictEq a b = true) : a = b := by
  unfold jsStrictEq at h
  rcases a with _ | av <;> rcases b with _ | bv
  · rfl
  · simp at h
  · simp at h
  · cases av <;> cases bv <;> simp_all

theorem step_timeout_fires (p : Str → Option Json) (r : Json) (st : SessState)
    (hcl : st.core.timeoutCleared = false) :
    step p r st .timeout
      = { st with core := settle { st.core with killed := st.core.killed + 1 } .timedOut } := by
  simp only [step]
  rw [if_neg]
  simp [hcl]

theorem unsettled_timer_armed (p : Str → Option Json) (r : Json) (evs : List Event)
    (h : (run p r evs).core.settled = none) :
    (run p r evs).core.timeoutCleared = false := by
  cases hcl : (run p r evs).core.timeoutCleared
  · rfl
  · exact absurd h ((sessInv_run p r evs).1 hcl)

/-- C2 (amended): the handshake written at session start is `initMsg`,
whose id is the reserved string `"init"`; every message resolved to the
caller has an id strictly equal to the caller request's id; hence when
the caller's id differs from the reserved `"init"` id, no message
bearing the reserved id is ever resolved to the caller. -/
theorem init_id_isolation :
    initMsg.get "id" = some (.str "init")
    ∧ initState.core.stdinWrites = [initMsg]
    ∧ ∀ (p : Str → Option Json) (r : Json) (evs : List Event) (m : Json),
        (run p r evs).core.settled = some (.resolved m) →
        ∃ mid rid, jsGetField m "id" = .ok mid ∧ jsGetField r "id" = .ok rid
          ∧ jsStrictEq mid rid = true
          ∧ (jsStrictEq rid (some (.str "init")) = false →
              jsStrictEq mid (some (.str "init")) = false) := by
  refine ⟨rfl, rfl, ?_⟩
  intro p r evs m hm
  obtain ⟨mid, rid, h1, h2, h3⟩ := (sessInv_run p r evs).2.2.2 m hm
  refine ⟨mid, rid, h1, h2, h3, ?_⟩
  intro hne
  rw [eq_of_jsStrictEq mid rid h3]
  exact hne

theorem init_id_isolation_witness :
    ∃ mid rid, jsGetField msgAbc "id" = .ok mid ∧ jsGetField reqAbc "id" = .ok rid
      ∧ jsStrictEq mid rid = true
      ∧ (jsStrictEq rid (some (.str "init")) = false →
          jsStrictEq mid (some (.str "init")) = false) :=
  init_id_isolation.2.2 jsonParse reqAbc [.stdoutData chunkOk] msgAbc rfl

/-- C2 counterexample: when the caller itself supplies the id `"init"`,
the reserved handshake identifier is not distinct from the caller's id,
and a response bearing the reserved `"init"` id is exactly what is
resolved to the caller. -/
theorem init_id_leak_counterexample :
    (run jsonParse reqInitId [.stdoutData chunkInitDup]).core.settled
      = some (.resolved msgInitRes)
    ∧ msgInitRes.get "id" = some (.str "init")
    ∧ reqInitId.get "id" = some (.str "init")
    ∧ initMsg.get "id" = some (.str "init") :=
  ⟨rfl, rfl, rfl, rfl⟩

/-- C3: the timeout ceiling is 60000 ms; after the timer event fires the
session promise is always settled (no hang), and if the session was
still pending at that moment the subprocess is killed (one more kill)
and the promise rejects with the timeout outcome. -/
theorem timeout_always_settles :
    TIMEOUT_MS = 60000
    ∧ ∀ (p : Str → Option Json) (r : Json) (evs : List Event),
        (run p r (evs ++ [.timeout])).core.settled ≠ none
        ∧ ((run p r evs).core.settled = none →
            (run p r (evs ++ [.timeout])).core.settled = some .timedOut
            ∧ (run p r (evs ++ [.timeout])).core.killed
                = (run p r evs).core.killed + 1) := by
  refine ⟨rfl, ?_⟩
  intro p r evs
  rw [run_append_one]
  rcases hs : (run p r evs).core.settled with _ | o
  · have hcl := unsettled_timer_armed p r evs hs
    rw [step_timeout_fires p r _ hcl, settle_of_none _ _ (by simpa using hs)]
    exact ⟨by simp, fun _ => ⟨rfl, rfl⟩⟩
  · refine ⟨?_, ?_⟩
    · rw [settled_some_step p r _ .timeout o hs]
      simp
    · intro hn
      simp at hn

theorem timeout_always_settles_witness :
    (run jsonParse reqAbc ([] ++ [Event.timeout])).core.settled = some .timedOut :=
  ((timeout_always_settles.2 jsonParse reqAbc []).2 rfl).1

/-- C4 (amended): at the moment the session promise settles, the number
of `proc.kill()` calls issued equals the settling path's kill count: one
on the correlated-response and timeout paths, zero on the spawn-error
and non-zero-exit paths (where the subprocess never started or already
exited on its own). -/
theorem kills_at_settle (p : Str → Option Json) (r : Json) (evs : List Event)
    (o : Outcome) (h : (run p r evs).core.settled = some o) :
    (run p r evs).core.killsAtSettle = some o.killsOnSettle :=
  (sessInv_run p r evs).2.2.1 o h

theorem kills_at_settle_witness :
    (run jsonParse reqAbc [Event.stdoutData chunkOk]).core.killsAtSettle = some 1 :=
  kills_at_settle jsonParse reqAbc [Event.stdoutData chunkOk] (.resolved msgAbc) rfl

/-- C4 counterexample: on the spawn-error path the promise settles with
zero kills ever issued, not exactly one. -/
theorem spawn_error_kill_counterexample :
    (run jsonParse reqAbc [.procError "spawn node ENOENT"]).core.settled
      = some (.errored "spawn node ENOENT")
    ∧ (run jsonParse reqAbc [.procError "spawn node ENOENT"]).core.killsAtSettle = some 0
    ∧ (run jsonParse reqAbc [.procError "spawn node ENOENT"]).core.killed = 0 :=
  ⟨rfl, rfl, rfl⟩

/-- C10: a clean exit (code 0, or null after a kill) before correlation
settles nothing at the moment of exit; the session is settled only later
by the timeout rejection, so it still settles within the ceiling. -/
theorem clean_exit_then_timeout (p : Str → Option Json) (r : Json)
    (evs : List Event) (h : (run p r evs).core.settled = none) :
    (run p r (evs ++ [.procExit (some 0)])).core.settled = none
    ∧ (run p r (evs ++ [.procExit none])).core.settled = none
    ∧ (run p r (evs ++ [.procExit (some 0), .timeout])).core.settled
        = some .timedOut := by
  have hz : step p r (run p r evs) (.procExit (some 0)) = run p r evs := by
    simp [step]
  refine ⟨?_, ?_, ?_⟩
  · rw [run_append_one, hz]
    exact h
  · rw [run_append_one]
    exact h
  · have hsplit : run p r (evs ++ [.procExit (some 0), .timeout])
        = step p r (step p r (run p r evs) (.procExit (some 0))) .timeout := by
      simp [run, List.foldl_append]
    rw [hsplit, hz, step_timeout_fires p r _ (unsettled_timer_armed p r evs h),
      settle_of_none _ _ (by simpa using h)]

theorem clean_exit_then_timeout_witness :
    (run jsonParse reqAbc [Event.procExit (some 0), Event.timeout]).core.settled
      = some .timedOut :=
  (clean_exit_then_timeout jsonParse reqAbc [] rfl).2.2

/-- C6: a line that is empty after trimming or fails to parse as JSON is
a strict no-op for the session, and filtering all such noise lines out
of a line sequence leaves the session state reached by the line loop
unchanged — noise never affects the resolved response. -/
theorem noise_lines_ignored (p : Str → Option Json) (r : Json) :
    (∀ (c : SessCore) (l : Str),
        (trimChars l).isEmpty = true ∨ (p (trimChars l)).isNone = true →
        processLine p r c l = c)
    ∧ ∀ (c : SessCore) (ls : List Str),
        ls.foldl (processLine p r) c
          = (ls.filter
              (fun l => !((trimChars l).isEmpty || (p (trimChars l)).isNone))).foldl
              (processLine p r) c := by
  have hnoop : ∀ (c : SessCore) (l : Str),
      (trimChars l).isEmpty = true ∨ (p (trimChars l)).isNone = true →
      processLine p r c l = c := by
    intro c l h
    unfold processLine
    rcases h with h | h
    · simp [List.isEmpty_iff.mp h]
    · rw [Option.isNone_iff_eq_none] at h
      by_cases h0 : trimChars l = []
      · simp [h0]
      · simp [h0, h]
  refine ⟨hnoop, ?_⟩
  intro c ls
  induction ls generalizing c with
  | nil => rfl
  | cons x xs ih =>
    cases hx : (trimChars x).isEmpty || (p (trimChars x)).isNone with
    | false =>
      have hfil : List.filter
            (fun l => !((trimChars l).isEmpty || (p (trimChars l)).isNone)) (x :: xs)
          = x :: List.filter
              (fun l => !((trimChars l).isEmpty || (p (trimChars l)).isNone)) xs := by
        simp only [List.filter_cons]
        simp only [hx]
        simp
      rw [List.foldl_cons, hfil, List.foldl_cons]
      exact ih (processLine p r c x)
    | true =>
      have hfil : List.filter
            (fun l => !((trimChars l).isEmpty || (p (trimChars l)).isNone)) (x :: xs)
          = List.filter
              (fun l => !((trimChars l).isEmpty || (p (trimChars l)).isNone)) xs := by
        simp only [List.filter_cons]
        simp only [hx]
        simp
      rw [List.foldl_cons, hfil,
        hnoop c x (by simpa [Bool.or_eq_true] using hx)]
      exact ih c

theorem noise_lines_ignored_witness :
    processLine jsonParse reqAbc initState.core noiseLine = initState.core :=
  (noise_lines_ignored jsonParse reqAbc).1 initState.core noiseLine (Or.inr rfl)

theorem collectResponses_ok_length (call : Json → Except String Json)
    (xs rs : List Json) (h : collectResponses call xs = .ok rs) :
    rs.length = xs.length := by
  induction xs generalizing rs with
  | nil =>
    simp only [collectResponses, Except.ok.injEq] at h
    simp [← h]
  | cons x xs ih =>
    simp only [collectResponses] at h
    rcases hx : call x with e | v
    · rw [hx] at h; exact Except.noConfusion h
    · rw [hx] at h
      rcases hc : collectResponses call xs with e | vs
      · rw [hc] at h; exact Except.noConfusion h
      · rw [hc] at h
        simp only [Except.ok.injEq] at h
        simp [← h, ih vs hc]

theorem collectResponses_ok_get (call : Json → Except String Json)
    (xs rs : List Json) (h : collectResponses call xs = .ok rs) :
    ∀ i (hx : i < xs.length) (hr : i < rs.length),
      call (xs.get ⟨i, hx⟩) = .ok (rs.get ⟨i, hr⟩) := by
  induction xs generalizing rs with
  | nil => intro i hx; simp at hx
  | cons x xs ih =>
    simp only [collectResponses] at h
    rcases hx0 : call x with e | v
    · rw [hx0] at h; exact Except.noConfusion h
    · rw [hx0] at h
      rcases hc : collectResponses call xs with e | vs
      · rw [hc] at h; exact Except.noConfusion h
      · rw [hc] at h
        simp only [Except.ok.injEq] at h
        subst h
        intro i hx hr
        cases i with
        | zero => simpa using hx0
        | succ j => simpa using ih vs hc j (by simpa using hx) (by simpa using hr)

theorem collectResponses_error_mem (call : Json → Except String Json)
    (xs : List Json) (e : String) (h : collectResponses call xs = .error e) :
    ∃ r, r ∈ xs ∧ call r = .error e := by
  induction xs with
  | nil => exact Except.noConfusion h
  | cons x xs ih =>
    simp only [collectResponses] at h
    rcases hx : call x with e0 | v
    · rw [hx] at h
      simp only [Except.error.injEq] at h
      exact ⟨x, by simp, by rw [hx, h]⟩
    · rw [hx] at h
      rcases hc : collectResponses call xs with e0 | vs
      · rw [hc] at h
        simp only [Except.error.injEq] at h
        obtain ⟨r, hr, he⟩ := ih (by rw [hc, h])
        exact ⟨r, by simp [hr], he⟩
      · rw [hc] at h; exact Except.noConfusion h

theorem collectResponses_error_of_mem (call : Json → Except String Json)
    (xs : List Json) (r : Json) (e : String) (hr : r ∈ xs)
    (he : call r = .error e) :
    ∃ e', collectResponses call xs = .error e' := by
  induction xs with
  | nil => cases hr
  | cons x xs ih =>
    rcases hx : call x with e0 | v
    · exact ⟨e0, by simp [collectResponses, hx]⟩
    · rcases List.mem_cons.mp hr with h1 | h1
      · subst h1; rw [hx] at he; exact Except.noConfusion he
      · obtain ⟨e', hc⟩ := ih h1
        exact ⟨e', by simp [collectResponses, hx, hc]⟩

/-- C5: an array body of N requests dispatches exactly those N requests,
one session each, in input order; when every session resolves, the
handler responds 200 with an array of the same length whose i-th element
is the response of the i-th request's session. -/
theorem mcp_batch_order (call : Json → Except String Json) (xs rs : List Json)
    (h : collectResponses call xs = .ok rs) :
    (handleMcp call (.arr xs)).dispatched = xs
    ∧ (handleMcp call (.arr xs)).status = 200
    ∧ (handleMcp call (.arr xs)).body = some (.arr rs)
    ∧ rs.length = xs.length
    ∧ ∀ i (hx : i < xs.length) (hr : i < rs.length),
        call (xs.get ⟨i, hx⟩) = .ok (rs.get ⟨i, hr⟩) := by
  refine ⟨?_, ?_, ?_, collectResponses_ok_length call xs rs h,
    collectResponses_ok_get call xs rs h⟩
  all_goals simp [handleMcp, mcpRequests, h]

theorem mcp_batch_order_witness :
    (handleMcp (fun j => .ok j) (.arr [reqAbc, initMsg])).body
      = some (.arr [reqAbc, initMsg]) :=
  (mcp_batch_order (fun j => .ok j) [reqAbc, initMsg] [reqAbc, initMsg] rfl).2.2.1

/-- C7: if any session of a `POST /mcp` request fails, the handler
responds 500 with the JSON-RPC-shaped envelope whose `error.code` is
-32603 and whose `error.message` is a failing session's message; the
handler is a total function, so the failure never escapes it. -/
theorem mcp_failure_envelope (call : Json → Except String Json) (body r : Json)
    (e : String) (hr : r ∈ mcpRequests body) (he : call r = .error e) :
    ∃ e', (∃ r', r' ∈ mcpRequests body ∧ call r' = .error e')
      ∧ (handleMcp call body).status = 500
      ∧ (handleMcp call body).body = some (mcpErrorEnvelope body e') := by
  obtain ⟨e', hc⟩ := collectResponses_error_of_mem call (mcpRequests body) r e hr he
  obtain ⟨r', hr', he'⟩ := collectResponses_error_mem call (mcpRequests body) e' hc
  exact ⟨e', ⟨r', hr', he'⟩, by simp [handleMcp, hc], by simp [handleMcp, hc]⟩

theorem mcp_failure_envelope_witness :
    ∃ e', (∃ r', r' ∈ mcpRequests reqAbc
        ∧ (fun _ => (.error "MCP server timeout after 60s" : Except String Json)) r'
            = .error e')
      ∧ (handleMcp (fun _ => .error "MCP server timeout after 60s") reqAbc).status = 500
      ∧ (handleMcp (fun _ => .error "MCP server timeout after 60s") reqAbc).body
          = some (mcpErrorEnvelope reqAbc e') :=
  mcp_failure_envelope (fun _ => .error "MCP server timeout after 60s") reqAbc reqAbc
    "MCP server timeout after 60s" (by show reqAbc ∈ [reqAbc]; simp) rfl

/-- C8 (amended): when the body's `code` member is a non-empty (truthy)
string, the handler dispatches exactly one synthetic `tools/call`
request named `run_code` carrying that code, and on session success
responds 200 with `response.result || response.error` unwrapped. -/
theorem run_code_dispatch (call : Json → Except String Json) (uuid : String)
    (body : Json) (code : String) (hc : body.get "code" = some (.str code))
    (hne : code ≠ "") :
    (handleRun call uuid body).dispatched = [runRequest uuid (.str code)]
    ∧ (runRequest uuid (.str code)).get "method" = some (.str "tools/call")
    ∧ ((runRequest uuid (.str code)).get "params" >>= fun ps => ps.get "name")
        = some (.str "run_code")
    ∧ ((runRequest uuid (.str code)).get "params" >>= fun ps =>
        ps.get "arguments" >>= fun args => args.get "code") = some (.str code)
    ∧ ∀ resp, call (runRequest uuid (.str code)) = .ok resp →
        (handleRun call uuid body).status = 200
        ∧ (handleRun call uuid body).body
            = jsOrOpt (resp.get "result") (resp.get "error") := by
  have htr : jsTruthy (.str code) = true := by simp [jsTruthy, hne]
  refine ⟨?_, rfl, rfl, rfl, ?_⟩
  · rcases hcall : call (runRequest uuid (.str code)) with e | v <;>
      simp [handleRun, hc, htr, hcall]
  · intro resp hres
    constructor <;> simp [handleRun, hc, htr, hres]

theorem run_code_dispatch_witness :
    (handleRun (fun _ => .ok (Json.obj [("result", .obj [])])) "id-1"
        (.obj [("code", .str "print(1)")])).dispatched
      = [runRequest "id-1" (.str "print(1)")] :=
  (run_code_dispatch (fun _ => .ok (Json.obj [("result", .obj [])])) "id-1"
    (.obj [("code", .str "print(1)")]) "print(1)" rfl (by decide)).1

/-- C8 counterexample: a body whose `code` member is the empty string —
a string field all the same — is rejected with 400 and dispatches
nothing, because `!code` is true for the empty string. -/
theorem run_code_empty_counterexample :
    (Json.obj [("code", .str "")]).get "code" = some (.str "")
    ∧ (handleRun (fun _ => .ok .null) "u" (.obj [("code", .str "")])).status = 400
    ∧ (handleRun (fun _ => .ok .null) "u" (.obj [("code", .str "")])).dispatched = [] :=
  ⟨rfl, rfl, rfl⟩

/-- C9: a body with no `code` member is answered 400 with the
descriptive message and dispatches no session at all. -/
theorem run_missing_code_400 (call : Json → Except String Json) (uuid : String)
    (body : Json) (h : body.get "code" = none) :
    handleRun call uuid body
      = ⟨400, some (.obj [("error", .str "code is required")]), []⟩ := by
  simp [handleRun, h]

theorem run_missing_code_400_witness :
    handleRun (fun _ => .ok .null) "u" (.obj [])
      = ⟨400, some (.obj [("error", .str "code is required")]), []⟩ :=
  run_missing_code_400 (fun _ => .ok .null) "u" (.obj []) rfl
